import Mathlib

/-!
Shallow embedding of `src/segmentation/source/quantify_expression.py`.

The function `quantify_expression(image, segmentation_mask, panel, save_path)`
iterates over the channels of a channel-major image, calls
`skimage.measure.regionprops(segmentation_mask, channel_image)` for each
channel, accumulates one Python dict per positive mask label inside the
insertion-ordered dict `cell_data`, turns `cell_data` into a pandas
DataFrame with `from_dict(orient = "index")` and writes it with
`to_csv(index = False)` into `save_path/cell_expressions.csv`.

Embedding conventions:
  * grids are row-major lists of rows; the mask holds naturals (labels),
    channels hold integer intensities;
  * Python dicts (`cell_data` and the per-cell dicts) are insertion-ordered
    association lists with in-place update (`dictInsert`);
  * `regionprops` is modelled by its documented semantics: it raises
    `ValueError` when the intensity image's shape differs from the label
    image's shape, and otherwise yields one properties object per positive
    label present in the mask, in ascending label order; geometric
    properties depend on the region's pixel set only, `intensity_mean` is
    the arithmetic mean of the intensity values over the region's pixels
    (idealised over ℚ);
  * the real-valued ellipse properties (`axis_major_length`,
    `axis_minor_length`, `eccentricity`, `orientation`) are functions of
    the region's normalised central second moments (the inertia tensor);
    they are represented exactly by constructors carrying those rational
    moments, so equality of represented values is decidable and finer than
    (hence implies) equality of the denoted reals;
  * Python's `round` is round-half-to-even on the exact rational value
    (`pyRound`);
  * a raised exception aborts the call before `to_csv`, so the file system
    is left untouched (`quantify_and_save`).
-/

abbrev Grid := List (List Int)

abbrev Mask := List (List Nat)

/-- numpy shape equality between the mask and one channel grid, as checked by
`regionprops`: same number of rows and the same row lengths (numpy arrays are
rectangular, so rowwise length equality coincides with shape equality). -/
def shapeEq (mask : Mask) (ch : Grid) : Bool :=
  decide (ch.length = mask.length) && decide (ch.map List.length = mask.map List.length)

/-- Largest value occurring in the mask (0 for an empty mask). -/
def maskMax (mask : Mask) : Nat :=
  mask.foldl (fun a row => row.foldl max a) 0

/-- The distinct positive labels present in the mask, in ascending order:
the order in which `regionprops` yields its region objects. -/
def maskLabels (mask : Mask) : List Nat :=
  (List.range (maskMax mask + 1)).filter
    (fun l => decide (l ≠ 0) && mask.any (fun row => row.any (fun v => decide (v = l))))

/-- The pixels (y, x) of the region of label `l`, in row-major order. -/
def regionPixels (mask : Mask) (l : Nat) : List (Nat × Nat) :=
  (mask.enum.map (fun yr =>
    ((yr.2.enum.filter (fun xv => decide (xv.2 = l))).map (fun xv => (yr.1, xv.1))))).flatten

/-- Number of pixels of the mask holding the value `l`. -/
def maskCount (mask : Mask) (l : Nat) : Nat :=
  (mask.map (fun row => row.countP (fun v => decide (v = l)))).sum

/-- Intensity of a channel grid at pixel (y, x) (0 out of range; all uses are
guarded by the shape check). -/
def pixelVal (g : Grid) (p : Nat × Nat) : Int :=
  (g.getD p.1 []).getD p.2 0

/-- `intensity_mean` of `regionprops`: arithmetic mean of the channel values
over the region's pixels, idealised over ℚ. -/
def intensityMean (g : Grid) (pts : List (Nat × Nat)) : ℚ :=
  ((pts.map (fun p => (pixelVal g p : ℚ))).sum) / (pts.length : ℚ)

/-- `centroid` of `regionprops`: (mean y, mean x) of the region's pixels. -/
def centroid (pts : List (Nat × Nat)) : ℚ × ℚ :=
  ((pts.map (fun p => (p.1 : ℚ))).sum / (pts.length : ℚ),
   (pts.map (fun p => (p.2 : ℚ))).sum / (pts.length : ℚ))

/-- Normalised central second moments (μ20/n, μ11/n, μ02/n) of the region:
the data from which `regionprops` derives the inertia tensor and hence
`axis_major_length`, `axis_minor_length`, `eccentricity`, `orientation`. -/
def inertiaMoments (pts : List (Nat × Nat)) : ℚ × ℚ × ℚ :=
  let c := centroid pts
  let n : ℚ := (pts.length : ℚ)
  ((pts.map (fun p => ((p.1 : ℚ) - c.1) ^ 2)).sum / n,
   (pts.map (fun p => ((p.1 : ℚ) - c.1) * ((p.2 : ℚ) - c.2))).sum / n,
   (pts.map (fun p => ((p.2 : ℚ) - c.2) ^ 2)).sum / n)

/-- Python's `round` on an exact rational: round half to even. -/
def pyRound (q : ℚ) : Int :=
  let f : Int := ⌊q⌋
  let r : ℚ := q - (f : ℚ)
  if r < 1 / 2 then f
  else if 1 / 2 < r then f + 1
  else if f % 2 = 0 then f else f + 1

/-- A value stored in one cell of the output table.  `nat` holds the label
identifier, `int` the `round`ed centroid coordinates and pixel count, `rat`
an intensity mean.  The four ellipse constructors carry the region's
normalised central second moments and denote, respectively, the reals
`4*sqrt(λmax)`, `4*sqrt(λmin)`, `sqrt(1 - λmin/λmax)` and the ellipse
orientation angle, where λmax ≥ λmin are the eigenvalues of the inertia
tensor built from those moments. -/
inductive Value where
  | nat (n : Nat)
  | int (i : Int)
  | rat (q : ℚ)
  | majorAxis (mu : ℚ × ℚ × ℚ)
  | minorAxis (mu : ℚ × ℚ × ℚ)
  | eccentricity (mu : ℚ × ℚ × ℚ)
  | orientation (mu : ℚ × ℚ × ℚ)
  deriving DecidableEq

abbrev Row := List (String × Value)

abbrev Table := List (Nat × Row)

/-- Python dict update `d[k] = v` on an insertion-ordered association list:
replace in place when the key is present, append otherwise. -/
def dictInsert {κ α : Type} [DecidableEq κ] (k : κ) (v : α) (d : List (κ × α)) :
    List (κ × α) :=
  if d.any (fun p => decide (p.1 = k)) then
    d.map (fun p => if p.1 = k then (k, v) else p)
  else d ++ [(k, v)]

/-- Python dict lookup `d[k]` (as an option). -/
def dictGet {κ α : Type} [DecidableEq κ] (k : κ) (d : List (κ × α)) : Option α :=
  (d.find? (fun p => decide (p.1 = k))).map (fun p => p.2)

/-- Python's `str.upper()` (as called on the marker names): uppercase each
character.  Equals `String.toUpper`, spelled via the character list so that
concrete instances reduce inside the kernel. -/
def strUpper (s : String) : String := String.mk (s.data.map Char.toUpper)

/-- Line 39 of the source: the dict a label starts from when first seen. -/
def freshRow (l : Nat) : Row :=
  [("CELL_IDENTIFIER", Value.nat l)]

/-- Lines 29–50 of the source for one region in one channel: the per-cell
dict after the eight keyed assignments, starting from the cell's previous
dict (or the fresh one when the label was not seen yet).  `nm` is
`panel[channel_number]`. -/
def mkRow8 (mask : Mask) (ch : Grid) (nm : String) (l : Nat) (prev : Option Row) : Row :=
  let pts := regionPixels mask l
  let c := centroid pts
  let mu := inertiaMoments pts
  let row0 : Row :=
    match prev with
    | none => freshRow l
    | some r => r
  let row1 := dictInsert "MAJOR_AXIS_LENGTH" (Value.majorAxis mu) row0
  let row2 := dictInsert "MINOR_AXIS_LENGTH" (Value.minorAxis mu) row1
  let row3 := dictInsert "X" (Value.int (pyRound c.2)) row2
  let row4 := dictInsert "Y" (Value.int (pyRound c.1)) row3
  let row5 := dictInsert "SIZE" (Value.int (pyRound ((pts.length : ℚ)))) row4
  let row6 := dictInsert "ECCENTRICITY" (Value.eccentricity mu) row5
  let row7 := dictInsert "ORIENTATION" (Value.orientation mu) row6
  dictInsert (strUpper nm) (Value.rat (intensityMean ch pts)) row7

/-- The update of `cell_data` performed by one iteration of the inner
`for property in properties` loop. -/
def updateCell (mask : Mask) (ch : Grid) (nm : String) (t : Table) (l : Nat) : Table :=
  dictInsert l (mkRow8 mask ch nm l (dictGet l t)) t

/-- Exceptions the source can raise while aggregating: `shapeMismatch` is the
`ValueError` raised by `regionprops` when the channel's shape differs from
the mask's, `indexError` the `IndexError` raised by `panel[channel_number]`
when the panel is too short. -/
inductive QErr where
  | shapeMismatch
  | indexError
  deriving DecidableEq

/-- One iteration of the outer `for channel_number in range(image.shape[0])`
loop.  `regionprops` validates the shapes first; the panel subscript is only
evaluated inside the per-region loop, so a too-short panel raises only when
at least one region exists.  (The source raises `IndexError` at the first
region of the offending channel after some in-place dict mutation; since the
raised exception discards `cell_data` unwritten, checking the name before
the per-label fold is observationally identical.) -/
def processChannel (mask : Mask) (panel : List String) (image : List Grid)
    (c : Nat) (t : Table) : Except QErr Table :=
  let ch := image.getD c []
  if shapeEq mask ch then
    match panel.get? c with
    | none => if maskLabels mask = [] then .ok t else .error .indexError
    | some nm => .ok ((maskLabels mask).foldl (updateCell mask ch nm) t)
  else .error .shapeMismatch

/-- The outer loop over the remaining channel indices. -/
def quantifyFrom (mask : Mask) (panel : List String) (image : List Grid) :
    List Nat → Table → Except QErr Table
  | [], t => .ok t
  | c :: cs, t =>
    match processChannel mask panel image c t with
    | .error e => .error e
    | .ok t' => quantifyFrom mask panel image cs t'

/-- `quantify_expression` up to (and excluding) the `to_csv` call: either the
exception it raises or the final `cell_data` table. -/
def quantify_expression (image : List Grid) (mask : Mask) (panel : List String) :
    Except QErr Table :=
  quantifyFrom mask panel image (List.range image.length) []

/-- Column list of `pd.DataFrame.from_dict(cell_data, orient = "index")`:
union of the rows' keys in order of first appearance. -/
def tableColumns (t : Table) : List String :=
  t.foldl (fun cols r =>
    cols ++ ((r.2.map Prod.fst).filter (fun k => decide (k ∉ cols)))) []

/-- The written CSV, structurally: header line and, per table row in table
order, one cell per column (`none` marks a key the row lacks, which pandas
renders as NaN). -/
structure Csv where
  header : List String
  rows : List (List (Option Value))
  deriving DecidableEq

def toCsv (t : Table) : Csv :=
  { header := tableColumns t
    rows := t.map (fun r => (tableColumns t).map (fun col => dictGet col r.2)) }

/-- The directory contents, as path ↦ file. -/
abbrev FileSystem := List (String × Csv)

/-- Whole call including the side effect: on success `to_csv` (over)writes
`save_path/cell_expressions.csv`; a raised exception leaves every file
untouched. -/
def quantify_and_save (fs : FileSystem) (image : List Grid) (mask : Mask)
    (panel : List String) (save_path : String) : FileSystem :=
  match quantify_expression image mask panel with
  | .error _ => fs
  | .ok t => dictInsert (save_path ++ "/cell_expressions.csv") (toCsv t) fs

/-- The eight fixed columns, in the order the source first inserts them. -/
def fixedColumns : List String :=
  ["CELL_IDENTIFIER", "MAJOR_AXIS_LENGTH", "MINOR_AXIS_LENGTH", "X", "Y",
   "SIZE", "ECCENTRICITY", "ORIENTATION"]

/-- The seven geometry columns (the fixed columns minus the identifier). -/
def geometryColumns : List String :=
  ["MAJOR_AXIS_LENGTH", "MINOR_AXIS_LENGTH", "X", "Y", "SIZE",
   "ECCENTRICITY", "ORIENTATION"]

/-- Key list of a table or row. -/
def keysOf {κ α : Type} (d : List (κ × α)) : List κ := d.map Prod.fst

/-- The column value of label `l`'s row (if the row exists). -/
def rowColGet (t : Table) (l : Nat) (col : String) : Option Value :=
  (dictGet l t).bind (fun r => dictGet col r)

/-- The table of a successful run (the empty table for an aborted one);
used to state concrete facts about runs without an existential. -/
def okTable (e : Except QErr Table) : Table :=
  match e with
  | .ok t => t
  | .error _ => []

/-! ### Association-list (Python dict) lemmas -/

theorem any_key_eq_true_iff {κ α : Type} [DecidableEq κ] (k : κ) (d : List (κ × α)) :
    (d.any (fun p => decide (p.1 = k)) = true) ↔ k ∈ keysOf d := by
  induction d with
  | nil => simp [keysOf]
  | cons p d ih =>
    simp only [List.any_cons, Bool.or_eq_true, decide_eq_true_eq, ih, keysOf,
      List.map_cons, List.mem_cons]
    constructor
    · rintro (h | h)
      · exact Or.inl h.symm
      · exact Or.inr h
    · rintro (h | h)
      · exact Or.inl h.symm
      · exact Or.inr h

theorem find?_map_replace_ne {κ α : Type} [DecidableEq κ] (k k' : κ) (v : α)
    (d : List (κ × α)) (hkk : k ≠ k') :
    (d.map (fun p => if p.1 = k' then (k', v) else p)).find? (fun p => decide (p.1 = k)) =
      d.find? (fun p => decide (p.1 = k)) := by
  induction d with
  | nil => rfl
  | cons p d ih =>
    by_cases hp : p.1 = k'
    · have h1 : (decide (p.1 = k)) = false := by
        simp only [decide_eq_false_iff_not]
        intro h
        exact hkk (h ▸ hp)
      have h2 : (decide ((k' : κ) = k)) = false := by
        simp only [decide_eq_false_iff_not]
        exact fun h => hkk h.symm
      simp [List.find?_cons, hp, h1, h2, ih]
    · cases hdec : decide (p.1 = k) with
      | true => simp [List.find?_cons, hp, hdec]
      | false => simp [List.find?_cons, hp, hdec, ih]

theorem find?_map_replace_eq {κ α : Type} [DecidableEq κ] (k : κ) (v : α)
    (d : List (κ × α)) (hmem : k ∈ keysOf d) :
    (d.map (fun p => if p.1 = k then (k, v) else p)).find? (fun p => decide (p.1 = k)) =
      some (k, v) := by
  induction d with
  | nil => simp [keysOf] at hmem
  | cons p d ih =>
    by_cases hp : p.1 = k
    · simp [List.find?_cons, hp]
    · have : k ∈ keysOf d := by
        simp only [keysOf, List.map_cons, List.mem_cons] at hmem
        rcases hmem with h | h
        · exact absurd h.symm hp
        · exact h
      simp [List.find?_cons, hp, ih this]

theorem dictGet_dictInsert {κ α : Type} [DecidableEq κ] (k k' : κ) (v : α)
    (d : List (κ × α)) :
    dictGet k (dictInsert k' v d) = if k = k' then some v else dictGet k d := by
  unfold dictInsert dictGet
  by_cases hmem : (d.any (fun p => decide (p.1 = k')) = true)
  · rw [if_pos hmem]
    by_cases hkk : k = k'
    · subst hkk
      rw [if_pos rfl, find?_map_replace_eq k v d ((any_key_eq_true_iff k d).mp hmem)]
      rfl
    · rw [if_neg hkk, find?_map_replace_ne k k' v d hkk]
  · rw [if_neg hmem, List.find?_append]
    have hall : ∀ q ∈ d, ¬(q.1 = k') := by
      intro q hq h
      exact hmem (List.any_eq_true.mpr ⟨q, hq, by simp [h]⟩)
    by_cases hkk : k = k'
    · subst hkk
      have h1 : d.find? (fun p => decide (p.1 = k)) = none := by
        rw [List.find?_eq_none]
        intro q hq
        simp [hall q hq]
      simp [h1]
    · have h2 : (decide ((k' : κ) = k)) = false := by
        simp only [decide_eq_false_iff_not]
        exact fun h => hkk h.symm
      cases hfd : d.find? (fun p => decide (p.1 = k)) with
      | some q => simp [hfd, hkk]
      | none => simp [hfd, hkk, h2]

theorem keysOf_dictInsert {κ α : Type} [DecidableEq κ] (k : κ) (v : α)
    (d : List (κ × α)) :
    keysOf (dictInsert k v d) =
      if k ∈ keysOf d then keysOf d else keysOf d ++ [k] := by
  unfold dictInsert
  by_cases hmem : (d.any (fun p => decide (p.1 = k)) = true)
  · rw [if_pos hmem, if_pos ((any_key_eq_true_iff k d).mp hmem)]
    unfold keysOf
    rw [List.map_map]
    apply List.map_congr_left
    intro p _
    by_cases hp : p.1 = k
    · simp [hp]
    · simp [hp]
  · rw [if_neg hmem,
      if_neg (fun h => hmem ((any_key_eq_true_iff k d).mpr h))]
    simp [keysOf]

theorem dictGet_eq_none_iff {κ α : Type} [DecidableEq κ] (k : κ) (d : List (κ × α)) :
    dictGet k d = none ↔ k ∉ keysOf d := by
  unfold dictGet
  rw [Option.map_eq_none', List.find?_eq_none]
  constructor
  · intro h hk
    rcases List.mem_map.mp hk with ⟨p, hp, hpk⟩
    exact absurd (by simpa using hpk) (by simpa using h p hp)
  · intro h p hp
    simp only [decide_eq_true_eq]
    intro hpk
    exact h (List.mem_map.mpr ⟨p, hp, hpk⟩)

theorem dictGet_isSome_iff {κ α : Type} [DecidableEq κ] (k : κ) (d : List (κ × α)) :
    (dictGet k d).isSome = true ↔ k ∈ keysOf d := by
  constructor
  · intro h
    by_contra hk
    rw [← dictGet_eq_none_iff] at hk
    rw [hk] at h
    simp at h
  · intro h
    cases hg : dictGet k d with
    | some v => simp
    | none => exact absurd ((dictGet_eq_none_iff k d).mp hg) (fun hn => hn h)

/-- In a table with duplicate-free keys, every stored pair is found by
lookup. -/
theorem dictGet_of_mem {κ α : Type} [DecidableEq κ] (d : List (κ × α))
    (hnd : (keysOf d).Nodup) (p : κ × α) (hp : p ∈ d) :
    dictGet p.1 d = some p.2 := by
  induction d with
  | nil => simp at hp
  | cons q d ih =>
    simp only [keysOf, List.map_cons, List.nodup_cons] at hnd
    rcases List.mem_cons.mp hp with h | h
    · subst h
      simp [dictGet, List.find?_cons]
    · have hq : (decide (q.1 = p.1)) = false := by
        simp only [decide_eq_false_iff_not]
        intro he
        apply hnd.1
        rw [he]
        exact List.mem_map.mpr ⟨p, h, rfl⟩
      have := ih hnd.2 h
      simp only [dictGet, List.find?_cons, hq] at this ⊢
      exact this

/-! ### Mask lemmas -/

theorem le_foldl_max_init (row : List Nat) (a : Nat) : a ≤ row.foldl max a := by
  induction row generalizing a with
  | nil => exact Nat.le_refl a
  | cons r row ih => exact Nat.le_trans (Nat.le_max_left a r) (ih (max a r))

theorem mem_le_foldl_max (row : List Nat) (a v : Nat) (hv : v ∈ row) :
    v ≤ row.foldl max a := by
  induction row generalizing a with
  | nil => simp at hv
  | cons r row ih =>
    rcases List.mem_cons.mp hv with h | h
    · subst h
      exact Nat.le_trans (Nat.le_max_right a v) (le_foldl_max_init row (max a v))
    · exact ih (max a r) h

theorem init_le_maskMax_fold (mask : Mask) (a : Nat) :
    a ≤ mask.foldl (fun a row => row.foldl max a) a := by
  induction mask generalizing a with
  | nil => exact Nat.le_refl a
  | cons row mask ih =>
    exact Nat.le_trans (le_foldl_max_init row a) (ih (row.foldl max a))

theorem mem_le_maskMax_fold (row : List Nat) (v : Nat) (hv : v ∈ row) :
    ∀ (mask : Mask) (a : Nat), row ∈ mask →
      v ≤ mask.foldl (fun a row => row.foldl max a) a := by
  intro mask
  induction mask with
  | nil =>
    intro a h
    simp at h
  | cons r mask ih =>
    intro a hrow
    simp only [List.foldl_cons]
    rcases List.mem_cons.mp hrow with h | h
    · subst h
      exact Nat.le_trans (mem_le_foldl_max row a v hv) (init_le_maskMax_fold mask _)
    · exact ih _ h

theorem mem_le_maskMax (mask : Mask) (row : List Nat) (v : Nat)
    (hrow : row ∈ mask) (hv : v ∈ row) : v ≤ maskMax mask :=
  mem_le_maskMax_fold row v hv mask 0 hrow

theorem mem_maskLabels (mask : Mask) (l : Nat) :
    l ∈ maskLabels mask ↔ (l ≠ 0 ∧ ∃ row ∈ mask, l ∈ row) := by
  unfold maskLabels
  rw [List.mem_filter]
  constructor
  · rintro ⟨-, h⟩
    simp only [Bool.and_eq_true, decide_eq_true_eq, List.any_eq_true] at h
    refine ⟨h.1, ?_⟩
    rcases h.2 with ⟨row, hrow, v, hv, hvl⟩
    exact ⟨row, hrow, hvl ▸ hv⟩
  · rintro ⟨h0, row, hrow, hl⟩
    refine ⟨List.mem_range.mpr (Nat.lt_succ_of_le (mem_le_maskMax mask row l hrow hl)), ?_⟩
    simp only [Bool.and_eq_true, decide_eq_true_eq, List.any_eq_true]
    exact ⟨h0, row, hrow, l, hl, by simp⟩

theorem maskLabels_nodup (mask : Mask) : (maskLabels mask).Nodup :=
  (List.nodup_range _).filter _

theorem maskLabels_sorted (mask : Mask) : (maskLabels mask).Pairwise (· < ·) :=
  (List.pairwise_lt_range _).filter _

theorem countP_enumFrom (q : Nat → Bool) (row : List Nat) (n : Nat) :
    (List.enumFrom n row).countP (fun xv => q xv.2) = row.countP q := by
  induction row generalizing n with
  | nil => rfl
  | cons r row ih => simp [List.enumFrom, List.countP_cons, ih]

theorem regionPixels_length (mask : Mask) (l : Nat) :
    (regionPixels mask l).length = maskCount mask l := by
  unfold regionPixels maskCount
  have aux : ∀ (m : Mask) (n : Nat),
      ((List.enumFrom n m).map (fun yr =>
        ((yr.2.enum.filter (fun xv => decide (xv.2 = l))).map
          (fun xv => (yr.1, xv.1))))).flatten.length =
        (m.map (fun row => row.countP (fun v => decide (v = l)))).sum := by
    intro m
    induction m with
    | nil => intro n; rfl
    | cons row m ih =>
      intro n
      simp only [List.enumFrom, List.map_cons, List.flatten_cons, List.length_append,
        List.length_map, List.sum_cons, ih]
      rw [← List.countP_eq_length_filter]
      have he : row.enum = List.enumFrom 0 row := rfl
      rw [he, countP_enumFrom (fun v => decide (v = l)) row 0]
  exact aux mask 0

theorem pyRound_natCast (n : Nat) : pyRound ((n : ℚ)) = (n : Int) := by
  unfold pyRound
  norm_num

/-! ### Row update characterisation -/

theorem dictGet_freshRow (l : Nat) (col : String) :
    dictGet col (freshRow l) =
      if col = "CELL_IDENTIFIER" then some (Value.nat l) else none := by
  by_cases h : col = "CELL_IDENTIFIER"
  · subst h
    simp [dictGet, freshRow, List.find?_cons]
  · have h2 : (decide (("CELL_IDENTIFIER" : String) = col)) = false := by
      simp only [decide_eq_false_iff_not]
      exact fun hh => h hh.symm
    simp [dictGet, freshRow, List.find?_cons, h2, h]

theorem dictGet_mkRow8 (mask : Mask) (ch : Grid) (nm : String) (l : Nat)
    (prev : Option Row) (col : String) :
    dictGet col (mkRow8 mask ch nm l prev) =
      if col = strUpper nm then
        some (Value.rat (intensityMean ch (regionPixels mask l)))
      else if col = "ORIENTATION" then
        some (Value.orientation (inertiaMoments (regionPixels mask l)))
      else if col = "ECCENTRICITY" then
        some (Value.eccentricity (inertiaMoments (regionPixels mask l)))
      else if col = "SIZE" then
        some (Value.int (pyRound (((regionPixels mask l).length : ℚ))))
      else if col = "Y" then
        some (Value.int (pyRound (centroid (regionPixels mask l)).1))
      else if col = "X" then
        some (Value.int (pyRound (centroid (regionPixels mask l)).2))
      else if col = "MINOR_AXIS_LENGTH" then
        some (Value.minorAxis (inertiaMoments (regionPixels mask l)))
      else if col = "MAJOR_AXIS_LENGTH" then
        some (Value.majorAxis (inertiaMoments (regionPixels mask l)))
      else
        match prev with
        | none => if col = "CELL_IDENTIFIER" then some (Value.nat l) else none
        | some r => dictGet col r := by
  unfold mkRow8
  simp only [dictGet_dictInsert]
  cases prev with
  | none => rw [dictGet_freshRow]
  | some r => rfl

theorem keysOf_mkRow8_none (mask : Mask) (ch : Grid) (nm : String) (l : Nat) :
    keysOf (mkRow8 mask ch nm l none) =
      fixedColumns ++ (if strUpper nm ∈ fixedColumns then [] else [strUpper nm]) := by
  unfold mkRow8
  simp only [keysOf_dictInsert]
  by_cases h : strUpper nm ∈ fixedColumns
  · simp only [fixedColumns] at h ⊢
    simp [keysOf, freshRow, h]
  · simp only [fixedColumns] at h ⊢
    simp only [List.mem_cons, List.not_mem_nil, or_false] at h
    push_neg at h
    simp [keysOf, freshRow, h.1, h.2.1, h.2.2.1, h.2.2.2.1, h.2.2.2.2.1,
      h.2.2.2.2.2.1, h.2.2.2.2.2.2.1, h.2.2.2.2.2.2.2]

theorem keysOf_mkRow8_some (mask : Mask) (ch : Grid) (nm : String) (l : Nat)
    (r : Row) (hsub : ∀ c ∈ fixedColumns, c ∈ keysOf r) :
    keysOf (mkRow8 mask ch nm l (some r)) =
      keysOf r ++ (if strUpper nm ∈ keysOf r then [] else [strUpper nm]) := by
  unfold mkRow8
  simp only [keysOf_dictInsert]
  have h1 : ("MAJOR_AXIS_LENGTH" : String) ∈ keysOf r := hsub _ (by simp [fixedColumns])
  have h2 : ("MINOR_AXIS_LENGTH" : String) ∈ keysOf r := hsub _ (by simp [fixedColumns])
  have h3 : ("X" : String) ∈ keysOf r := hsub _ (by simp [fixedColumns])
  have h4 : ("Y" : String) ∈ keysOf r := hsub _ (by simp [fixedColumns])
  have h5 : ("SIZE" : String) ∈ keysOf r := hsub _ (by simp [fixedColumns])
  have h6 : ("ECCENTRICITY" : String) ∈ keysOf r := hsub _ (by simp [fixedColumns])
  have h7 : ("ORIENTATION" : String) ∈ keysOf r := hsub _ (by simp [fixedColumns])
  by_cases h : strUpper nm ∈ keysOf r
  · simp [h1, h2, h3, h4, h5, h6, h7, h]
  · simp [h1, h2, h3, h4, h5, h6, h7, h]

theorem dictGet_updateCell (mask : Mask) (ch : Grid) (nm : String) (t : Table)
    (l l' : Nat) :
    dictGet l' (updateCell mask ch nm t l) =
      if l' = l then some (mkRow8 mask ch nm l (dictGet l t)) else dictGet l' t := by
  unfold updateCell
  rw [dictGet_dictInsert]

theorem keysOf_updateCell (mask : Mask) (ch : Grid) (nm : String) (t : Table) (l : Nat) :
    keysOf (updateCell mask ch nm t l) =
      if l ∈ keysOf t then keysOf t else keysOf t ++ [l] :=
  keysOf_dictInsert _ _ _

/-! ### The per-channel label fold -/

theorem labelFold_get_notmem (mask : Mask) (ch : Grid) (nm : String) (ks : List Nat)
    (t : Table) (l : Nat) (hl : l ∉ ks) :
    dictGet l (ks.foldl (updateCell mask ch nm) t) = dictGet l t := by
  induction ks generalizing t with
  | nil => rfl
  | cons k ks ih =>
    simp only [List.foldl_cons]
    rw [ih (updateCell mask ch nm t k) (fun h => hl (List.mem_cons_of_mem _ h)),
      dictGet_updateCell,
      if_neg (fun h : l = k => hl (by rw [h]; exact List.mem_cons_self _ _))]

theorem labelFold_get_mem (mask : Mask) (ch : Grid) (nm : String) (ks : List Nat)
    (t : Table) (l : Nat) (hnd : ks.Nodup) (hl : l ∈ ks) :
    dictGet l (ks.foldl (updateCell mask ch nm) t) =
      some (mkRow8 mask ch nm l (dictGet l t)) := by
  induction ks generalizing t with
  | nil => simp at hl
  | cons k ks ih =>
    simp only [List.foldl_cons]
    rcases List.mem_cons.mp hl with h | h
    · subst h
      rw [labelFold_get_notmem mask ch nm ks _ l (List.nodup_cons.mp hnd).1,
        dictGet_updateCell, if_pos rfl]
    · have hkl : l ≠ k := fun he => (List.nodup_cons.mp hnd).1 (he ▸ h)
      rw [ih (updateCell mask ch nm t k) (List.nodup_cons.mp hnd).2 h,
        dictGet_updateCell, if_neg hkl]

theorem labelFold_keys (mask : Mask) (ch : Grid) (nm : String) (ks : List Nat)
    (t : Table) (hnd : ks.Nodup) :
    keysOf (ks.foldl (updateCell mask ch nm) t) =
      keysOf t ++ ks.filter (fun k => decide (k ∉ keysOf t)) := by
  induction ks generalizing t with
  | nil => simp
  | cons k ks ih =>
    have hnd' := List.nodup_cons.mp hnd
    simp only [List.foldl_cons, List.filter_cons]
    by_cases hk : k ∈ keysOf t
    · have hdk : (decide (k ∉ keysOf t)) = false := by simp [hk]
      rw [hdk, ih (updateCell mask ch nm t k) hnd'.2, keysOf_updateCell, if_pos hk]
      simp
    · have hdk : (decide (k ∉ keysOf t)) = true := by simp [hk]
      rw [hdk, ih (updateCell mask ch nm t k) hnd'.2, keysOf_updateCell, if_neg hk]
      simp only [if_true, List.append_assoc, List.cons_append, List.nil_append]
      congr 1
      congr 1
      apply List.filter_congr
      intro a ha
      have hak : a ≠ k := fun he => hnd'.1 (he ▸ ha)
      simp only [List.mem_append, List.mem_singleton, decide_eq_decide]
      constructor
      · intro h hmem
        exact h (Or.inl hmem)
      · intro h hmem
        rcases hmem with hm | hm
        · exact h hm
        · exact hak hm

/-! ### The channel fold -/

/-- The pure effect of one successfully processed channel on `cell_data`. -/
def pstep (mask : Mask) (image : List Grid) (panel : List String) (t : Table)
    (c : Nat) : Table :=
  (maskLabels mask).foldl
    (updateCell mask (image.getD c []) ((panel.get? c).getD "")) t

theorem processChannel_ok (mask : Mask) (panel : List String) (image : List Grid)
    (c : Nat) (t : Table) (hsh : shapeEq mask (image.getD c []) = true)
    (hnm : (panel.get? c).isSome = true) :
    processChannel mask panel image c t = .ok (pstep mask image panel t c) := by
  unfold processChannel pstep
  rw [if_pos hsh]
  rcases Option.isSome_iff_exists.mp hnm with ⟨nm, hnm'⟩
  rw [hnm']
  rfl

theorem processChannel_err_shape (mask : Mask) (panel : List String)
    (image : List Grid) (c : Nat) (t : Table)
    (hsh : shapeEq mask (image.getD c []) = false) :
    processChannel mask panel image c t = .error .shapeMismatch := by
  unfold processChannel
  rw [if_neg (fun hc => by rw [hsh] at hc; cases hc)]

theorem quantifyFrom_ok (mask : Mask) (panel : List String) (image : List Grid)
    (cs : List Nat)
    (h : ∀ c ∈ cs, shapeEq mask (image.getD c []) = true ∧
      (panel.get? c).isSome = true) (t : Table) :
    quantifyFrom mask panel image cs t = .ok (cs.foldl (pstep mask image panel) t) := by
  induction cs generalizing t with
  | nil => rfl
  | cons c cs ih =>
    obtain ⟨hsh, hnm⟩ := h c (List.mem_cons_self _ _)
    simp only [quantifyFrom, List.foldl_cons]
    rw [processChannel_ok mask panel image c t hsh hnm]
    exact ih (fun c' hc' => h c' (List.mem_cons_of_mem _ hc')) _

theorem quantifyFrom_err_shape (mask : Mask) (panel : List String)
    (image : List Grid) (cs : List Nat)
    (h : ∀ c ∈ cs, (panel.get? c).isSome = true)
    (hbad : ∃ c ∈ cs, shapeEq mask (image.getD c []) = false) (t : Table) :
    quantifyFrom mask panel image cs t = .error .shapeMismatch := by
  induction cs generalizing t with
  | nil =>
    rcases hbad with ⟨c, hc, -⟩
    simp at hc
  | cons c cs ih =>
    by_cases hsh : shapeEq mask (image.getD c []) = true
    · have hbad' : ∃ c' ∈ cs, shapeEq mask (image.getD c' []) = false := by
        rcases hbad with ⟨c', hc', hb⟩
        rcases List.mem_cons.mp hc' with he | hm
        · subst he
          rw [hsh] at hb
          cases hb
        · exact ⟨c', hm, hb⟩
      simp only [quantifyFrom]
      rw [processChannel_ok mask panel image c t hsh (h c (List.mem_cons_self _ _))]
      exact ih (fun c' hc' => h c' (List.mem_cons_of_mem _ hc')) hbad' _
    · simp only [Bool.not_eq_true] at hsh
      simp only [quantifyFrom]
      rw [processChannel_err_shape mask panel image c t hsh]

theorem quantifyFrom_err_missing_name (mask : Mask) (panel : List String)
    (image : List Grid) (cs : List Nat) (hlab : maskLabels mask ≠ [])
    (hbad : ∃ c ∈ cs, panel.get? c = none) (t : Table) :
    ∃ e, quantifyFrom mask panel image cs t = .error e := by
  induction cs generalizing t with
  | nil =>
    rcases hbad with ⟨c, hc, -⟩
    simp at hc
  | cons c cs ih =>
    cases hpc : processChannel mask panel image c t with
    | error e =>
      refine ⟨e, ?_⟩
      simp only [quantifyFrom]
      rw [hpc]
    | ok t' =>
      have hname : panel.get? c ≠ none := by
        intro hn
        unfold processChannel at hpc
        by_cases hsh : shapeEq mask (image.getD c []) = true
        · rw [if_pos hsh, hn, if_neg hlab] at hpc
          cases hpc
        · rw [if_neg hsh] at hpc
          cases hpc
      have hbad' : ∃ c' ∈ cs, panel.get? c' = none := by
        rcases hbad with ⟨c', hc', hb⟩
        rcases List.mem_cons.mp hc' with he | hm
        · subst he
          exact absurd hb hname
        · exact ⟨c', hm, hb⟩
      simp only [quantifyFrom]
      rw [hpc]
      exact ih hbad' t'

/-- The value of a geometry column: a function of the mask and the label
only. -/
def geomVal (mask : Mask) (l : Nat) (col : String) : Value :=
  if col = "ORIENTATION" then Value.orientation (inertiaMoments (regionPixels mask l))
  else if col = "ECCENTRICITY" then Value.eccentricity (inertiaMoments (regionPixels mask l))
  else if col = "SIZE" then Value.int (pyRound (((regionPixels mask l).length : ℚ)))
  else if col = "Y" then Value.int (pyRound (centroid (regionPixels mask l)).1)
  else if col = "X" then Value.int (pyRound (centroid (regionPixels mask l)).2)
  else if col = "MINOR_AXIS_LENGTH" then Value.minorAxis (inertiaMoments (regionPixels mask l))
  else Value.majorAxis (inertiaMoments (regionPixels mask l))

theorem pstep_get_mem (mask : Mask) (image : List Grid) (panel : List String)
    (t : Table) (c : Nat) (l : Nat) (hl : l ∈ maskLabels mask) :
    dictGet l (pstep mask image panel t c) =
      some (mkRow8 mask (image.getD c []) ((panel.get? c).getD "") l (dictGet l t)) :=
  labelFold_get_mem _ _ _ _ _ _ (maskLabels_nodup mask) hl

theorem pstep_col_notfixed (mask : Mask) (image : List Grid) (panel : List String)
    (t : Table) (c : Nat) (l : Nat) (col : String)
    (hcol : col ∉ fixedColumns) (hl : l ∈ maskLabels mask) :
    rowColGet (pstep mask image panel t c) l col =
      if col = strUpper ((panel.get? c).getD "") then
        some (Value.rat (intensityMean (image.getD c []) (regionPixels mask l)))
      else rowColGet t l col := by
  simp only [fixedColumns, List.mem_cons, List.not_mem_nil, or_false] at hcol
  push_neg at hcol
  obtain ⟨hc1, hc2, hc3, hc4, hc5, hc6, hc7, hc8⟩ := hcol
  unfold rowColGet
  rw [pstep_get_mem mask image panel t c l hl, Option.some_bind, dictGet_mkRow8]
  by_cases hup : col = strUpper ((panel.get? c).getD "")
  · rw [if_pos hup, if_pos hup]
  · rw [if_neg hup, if_neg hup, if_neg hc8, if_neg hc7, if_neg hc6, if_neg hc5,
      if_neg hc4, if_neg hc3, if_neg hc2]
    cases dictGet l t with
    | none => rw [Option.none_bind, if_neg hc1]
    | some r => rw [Option.some_bind]

theorem pstep_col_geometry (mask : Mask) (image : List Grid) (panel : List String)
    (t : Table) (c : Nat) (l : Nat) (col : String)
    (hcol : col ∈ geometryColumns) (hl : l ∈ maskLabels mask) :
    rowColGet (pstep mask image panel t c) l col =
      if col = strUpper ((panel.get? c).getD "") then
        some (Value.rat (intensityMean (image.getD c []) (regionPixels mask l)))
      else some (geomVal mask l col) := by
  unfold rowColGet
  rw [pstep_get_mem mask image panel t c l hl, Option.some_bind, dictGet_mkRow8]
  simp only [geometryColumns, List.mem_cons, List.not_mem_nil, or_false] at hcol
  by_cases hup : col = strUpper ((panel.get? c).getD "")
  · rw [if_pos hup, if_pos hup]
  · rw [if_neg hup, if_neg hup]
    simp only [geomVal]
    rcases hcol with rfl | rfl | rfl | rfl | rfl | rfl | rfl <;>
      · repeat first | rw [if_pos (by decide)] | rw [if_neg (by decide)]

theorem pstep_col_cid (mask : Mask) (image : List Grid) (panel : List String)
    (t : Table) (c : Nat) (l : Nat)
    (hnm : strUpper ((panel.get? c).getD "") ≠ "CELL_IDENTIFIER")
    (hl : l ∈ maskLabels mask) :
    rowColGet (pstep mask image panel t c) l "CELL_IDENTIFIER" =
      (match dictGet l t with
      | none => some (Value.nat l)
      | some r => dictGet "CELL_IDENTIFIER" r) := by
  unfold rowColGet
  rw [pstep_get_mem mask image panel t c l hl, Option.some_bind, dictGet_mkRow8]
  rw [if_neg (fun h => hnm h.symm)]
  repeat rw [if_neg (by decide)]
  rw [if_pos rfl]

/-! ### Invariants across the channel fold -/

/-- Value of a non-fixed column after a sequence of channels, as a fold:
each channel whose uppercased name is the column overwrites the value. -/
def colTrace (mask : Mask) (image : List Grid) (panel : List String) (l : Nat)
    (col : String) (cs : List Nat) (init : Option Value) : Option Value :=
  cs.foldl (fun acc c =>
    if col = strUpper ((panel.get? c).getD "") then
      some (Value.rat (intensityMean (image.getD c []) (regionPixels mask l)))
    else acc) init

theorem cfold_col_notfixed (mask : Mask) (image : List Grid) (panel : List String)
    (l : Nat) (col : String) (hcol : col ∉ fixedColumns) (hl : l ∈ maskLabels mask)
    (cs : List Nat) (t : Table) :
    rowColGet (cs.foldl (pstep mask image panel) t) l col =
      colTrace mask image panel l col cs (rowColGet t l col) := by
  induction cs generalizing t with
  | nil => rfl
  | cons c cs ih =>
    simp only [List.foldl_cons, colTrace] at ih ⊢
    rw [ih (pstep mask image panel t c),
      pstep_col_notfixed mask image panel t c l col hcol hl]

theorem colTrace_of_no_match (mask : Mask) (image : List Grid) (panel : List String)
    (l : Nat) (col : String) (cs : List Nat) (init : Option Value)
    (h : ∀ c ∈ cs, col ≠ strUpper ((panel.get? c).getD "")) :
    colTrace mask image panel l col cs init = init := by
  induction cs generalizing init with
  | nil => rfl
  | cons c cs ih =>
    simp only [colTrace, List.foldl_cons]
    rw [if_neg (h c (List.mem_cons_self _ _))]
    exact ih init (fun c' hc' => h c' (List.mem_cons_of_mem _ hc'))

theorem colTrace_append (mask : Mask) (image : List Grid) (panel : List String)
    (l : Nat) (col : String) (cs cs' : List Nat) (init : Option Value) :
    colTrace mask image panel l col (cs ++ cs') init =
      colTrace mask image panel l col cs' (colTrace mask image panel l col cs init) := by
  unfold colTrace
  rw [List.foldl_append]

theorem cfold_col_geometry_concat (mask : Mask) (image : List Grid)
    (panel : List String) (l : Nat) (col : String) (hcol : col ∈ geometryColumns)
    (hl : l ∈ maskLabels mask) (cs : List Nat) (c : Nat) (t : Table) :
    rowColGet ((cs ++ [c]).foldl (pstep mask image panel) t) l col =
      if col = strUpper ((panel.get? c).getD "") then
        some (Value.rat (intensityMean (image.getD c []) (regionPixels mask l)))
      else some (geomVal mask l col) := by
  rw [List.foldl_append]
  simp only [List.foldl_cons, List.foldl_nil]
  exact pstep_col_geometry mask image panel _ c l col hcol hl

theorem cfold_cid_preserve (mask : Mask) (image : List Grid) (panel : List String)
    (l : Nat) (hl : l ∈ maskLabels mask) (cs : List Nat)
    (hall : ∀ c ∈ cs, strUpper ((panel.get? c).getD "") ≠ "CELL_IDENTIFIER")
    (t : Table) (hprev : rowColGet t l "CELL_IDENTIFIER" = some (Value.nat l)) :
    rowColGet (cs.foldl (pstep mask image panel) t) l "CELL_IDENTIFIER" =
      some (Value.nat l) := by
  induction cs generalizing t with
  | nil => exact hprev
  | cons c cs ih =>
    simp only [List.foldl_cons]
    apply ih (fun c' hc' => hall c' (List.mem_cons_of_mem _ hc'))
    rw [pstep_col_cid mask image panel t c l (hall c (List.mem_cons_self _ _)) hl]
    cases hdt : dictGet l t with
    | none => rfl
    | some r =>
      unfold rowColGet at hprev
      rw [hdt, Option.some_bind] at hprev
      exact hprev

theorem cfold_cid (mask : Mask) (image : List Grid) (panel : List String)
    (l : Nat) (hl : l ∈ maskLabels mask) (c : Nat) (cs : List Nat)
    (hall : ∀ c' ∈ c :: cs, strUpper ((panel.get? c').getD "") ≠ "CELL_IDENTIFIER")
    (t : Table) (hinit : dictGet l t = none) :
    rowColGet ((c :: cs).foldl (pstep mask image panel) t) l "CELL_IDENTIFIER" =
      some (Value.nat l) := by
  simp only [List.foldl_cons]
  apply cfold_cid_preserve mask image panel l hl cs
    (fun c' hc' => hall c' (List.mem_cons_of_mem _ hc'))
  rw [pstep_col_cid mask image panel t c l (hall c (List.mem_cons_self _ _)) hl, hinit]

theorem pstep_keys (mask : Mask) (image : List Grid) (panel : List String)
    (t : Table) (c : Nat) :
    keysOf (pstep mask image panel t c) =
      keysOf t ++ (maskLabels mask).filter (fun k => decide (k ∉ keysOf t)) :=
  labelFold_keys _ _ _ _ _ (maskLabels_nodup mask)

theorem cfold_keys_preserve (mask : Mask) (image : List Grid) (panel : List String)
    (cs : List Nat) (t : Table) (h : keysOf t = maskLabels mask) :
    keysOf (cs.foldl (pstep mask image panel) t) = maskLabels mask := by
  induction cs generalizing t with
  | nil => exact h
  | cons c cs ih =>
    simp only [List.foldl_cons]
    apply ih
    rw [pstep_keys, h]
    have : (maskLabels mask).filter (fun k => decide (k ∉ maskLabels mask)) = [] := by
      apply List.filter_eq_nil_iff.mpr
      intro a ha
      simp [ha]
    rw [this, List.append_nil]

theorem cfold_keys (mask : Mask) (image : List Grid) (panel : List String)
    (c : Nat) (cs : List Nat) :
    keysOf ((c :: cs).foldl (pstep mask image panel) []) = maskLabels mask := by
  simp only [List.foldl_cons]
  apply cfold_keys_preserve
  rw [pstep_keys]
  have h1 : keysOf ([] : Table) = [] := rfl
  rw [h1, List.nil_append]
  apply List.filter_eq_self.mpr
  intro a _
  simp [h1]

/-! ### Row key lists and the CSV header -/

/-- Append each string not yet present (first-occurrence deduplication):
how a Python dict's key list grows under repeated keyed assignment. -/
def firstOccur (us : List String) (acc : List String) : List String :=
  us.foldl (fun a u => if u ∈ a then a else a ++ [u]) acc

/-- Uppercased panel names of a sequence of channel indices. -/
def chanUppers (panel : List String) (cs : List Nat) : List String :=
  cs.map (fun c => strUpper ((panel.get? c).getD ""))

theorem pstep_rowkeys_none (mask : Mask) (image : List Grid) (panel : List String)
    (t : Table) (c : Nat) (l : Nat) (hl : l ∈ maskLabels mask)
    (hnm : strUpper ((panel.get? c).getD "") ∉ fixedColumns)
    (hinit : dictGet l t = none) :
    (dictGet l (pstep mask image panel t c)).map keysOf =
      some (fixedColumns ++ [strUpper ((panel.get? c).getD "")]) := by
  rw [pstep_get_mem mask image panel t c l hl, hinit, Option.map_some']
  rw [keysOf_mkRow8_none, if_neg hnm]

theorem pstep_rowkeys_some (mask : Mask) (image : List Grid) (panel : List String)
    (t : Table) (c : Nat) (l : Nat) (hl : l ∈ maskLabels mask)
    (hnm : strUpper ((panel.get? c).getD "") ∉ fixedColumns)
    (r : Row) (hr : dictGet l t = some r) (A : List String)
    (hk : keysOf r = fixedColumns ++ A) :
    (dictGet l (pstep mask image panel t c)).map keysOf =
      some (fixedColumns ++
        (if strUpper ((panel.get? c).getD "") ∈ A then A
         else A ++ [strUpper ((panel.get? c).getD "")])) := by
  rw [pstep_get_mem mask image panel t c l hl, hr, Option.map_some']
  rw [keysOf_mkRow8_some mask _ _ l r
    (fun x hx => by rw [hk]; exact List.mem_append_left _ hx), hk]
  by_cases hA : strUpper ((panel.get? c).getD "") ∈ A
  · rw [if_pos (List.mem_append_right _ hA), if_pos hA, List.append_nil]
  · rw [if_neg (fun hin => by
      rcases List.mem_append.mp hin with h | h
      · exact hnm h
      · exact hA h), if_neg hA, List.append_assoc]

theorem cfold_rowkeys (mask : Mask) (image : List Grid) (panel : List String)
    (l : Nat) (hl : l ∈ maskLabels mask) (cs : List Nat)
    (hall : ∀ c ∈ cs, strUpper ((panel.get? c).getD "") ∉ fixedColumns)
    (t : Table) (A : List String)
    (hprev : (dictGet l t).map keysOf = some (fixedColumns ++ A)) :
    (dictGet l (cs.foldl (pstep mask image panel) t)).map keysOf =
      some (fixedColumns ++ firstOccur (chanUppers panel cs) A) := by
  induction cs generalizing t A with
  | nil => exact hprev
  | cons c cs ih =>
    simp only [List.foldl_cons, chanUppers, List.map_cons]
    have hfo : firstOccur (strUpper ((panel.get? c).getD "") :: (cs.map
        (fun c => strUpper ((panel.get? c).getD "")))) A =
        firstOccur (cs.map (fun c => strUpper ((panel.get? c).getD "")))
          (if strUpper ((panel.get? c).getD "") ∈ A then A
           else A ++ [strUpper ((panel.get? c).getD "")]) := rfl
    rw [hfo]
    rcases Option.map_eq_some'.mp hprev with ⟨r, hr, hkr⟩
    exact ih (fun c' hc' => hall c' (List.mem_cons_of_mem _ hc'))
      (pstep mask image panel t c) _
      (pstep_rowkeys_some mask image panel t c l hl
        (hall c (List.mem_cons_self _ _)) r hr A hkr)

theorem cfold_rowkeys_from_empty (mask : Mask) (image : List Grid)
    (panel : List String) (l : Nat) (hl : l ∈ maskLabels mask) (c : Nat)
    (cs : List Nat)
    (hall : ∀ c' ∈ c :: cs, strUpper ((panel.get? c').getD "") ∉ fixedColumns) :
    (dictGet l ((c :: cs).foldl (pstep mask image panel) [])).map keysOf =
      some (fixedColumns ++ firstOccur (chanUppers panel (c :: cs)) []) := by
  simp only [List.foldl_cons, chanUppers, List.map_cons]
  have hfo : firstOccur (strUpper ((panel.get? c).getD "") :: (cs.map
      (fun c => strUpper ((panel.get? c).getD "")))) [] =
      firstOccur (cs.map (fun c => strUpper ((panel.get? c).getD "")))
        [strUpper ((panel.get? c).getD "")] := by
    unfold firstOccur
    simp
  rw [hfo]
  exact cfold_rowkeys mask image panel l hl cs
    (fun c' hc' => hall c' (List.mem_cons_of_mem _ hc'))
    (pstep mask image panel [] c) _
    (pstep_rowkeys_none mask image panel [] c l hl
      (hall c (List.mem_cons_self _ _)) rfl)

theorem tableColumns_const (t : Table) (KS : List String) (hne : t ≠ [])
    (hks : ∀ p ∈ t, keysOf p.2 = KS) :
    tableColumns t = KS := by
  have step_aux : ∀ (rs : List (Nat × Row)) (C : List String),
      (∀ p ∈ rs, keysOf p.2 = KS) → (∀ k ∈ KS, k ∈ C) →
      rs.foldl (fun cols r =>
        cols ++ ((r.2.map Prod.fst).filter (fun k => decide (k ∉ cols)))) C = C := by
    intro rs
    induction rs with
    | nil => intro C _ _; rfl
    | cons r rs ih =>
      intro C hks' hsub
      simp only [List.foldl_cons]
      have hfe : (r.2.map Prod.fst).filter (fun k => decide (k ∉ C)) = [] := by
        apply List.filter_eq_nil_iff.mpr
        intro a ha
        have : a ∈ KS := by
          rw [← hks' r (List.mem_cons_self _ _)]
          exact ha
        simp [hsub a this]
      rw [hfe, List.append_nil]
      exact ih C (fun p hp => hks' p (List.mem_cons_of_mem _ hp)) hsub
  cases t with
  | nil => exact absurd rfl hne
  | cons r rs =>
    unfold tableColumns
    simp only [List.foldl_cons, List.nil_append]
    have h1 : (r.2.map Prod.fst).filter (fun k => decide (k ∉ ([] : List String))) =
        KS := by
      rw [List.filter_eq_self.mpr (by intro a _; simp)]
      exact hks r (List.mem_cons_self _ _)
    rw [h1]
    exact step_aux rs KS (fun p hp => hks p (List.mem_cons_of_mem _ hp))
      (fun k hk => hk)

theorem firstOccur_nodup (us : List String) (A : List String) (hA : A.Nodup) :
    (firstOccur us A).Nodup := by
  induction us generalizing A with
  | nil => exact hA
  | cons u us ih =>
    unfold firstOccur
    simp only [List.foldl_cons]
    by_cases hu : u ∈ A
    · rw [if_pos hu]
      exact ih A hA
    · rw [if_neg hu]
      apply ih
      rw [List.nodup_append]
      exact ⟨hA, List.nodup_singleton u, by
        intro x hx hxu
        rw [List.mem_singleton] at hxu
        exact hu (hxu ▸ hx)⟩

theorem mem_firstOccur (us : List String) (A : List String) (x : String) :
    x ∈ firstOccur us A ↔ x ∈ A ∨ x ∈ us := by
  induction us generalizing A with
  | nil => simp [firstOccur]
  | cons u us ih =>
    unfold firstOccur
    simp only [List.foldl_cons]
    by_cases hu : u ∈ A
    · rw [if_pos hu]
      rw [show (us.foldl (fun a u => if u ∈ a then a else a ++ [u]) A) =
        firstOccur us A from rfl, ih]
      constructor
      · rintro (h | h)
        · exact Or.inl h
        · exact Or.inr (List.mem_cons_of_mem _ h)
      · rintro (h | h)
        · exact Or.inl h
        · rcases List.mem_cons.mp h with he | hm
          · exact Or.inl (he ▸ hu)
          · exact Or.inr hm
    · rw [if_neg hu]
      rw [show (us.foldl (fun a u => if u ∈ a then a else a ++ [u]) (A ++ [u])) =
        firstOccur us (A ++ [u]) from rfl, ih]
      simp only [List.mem_append, List.mem_singleton, List.mem_cons]
      tauto

theorem firstOccur_eq_append (us : List String) (A : List String)
    (hnd : us.Nodup) (hdis : ∀ u ∈ us, u ∉ A) :
    firstOccur us A = A ++ us := by
  induction us generalizing A with
  | nil => simp [firstOccur]
  | cons u us ih =>
    unfold firstOccur
    simp only [List.foldl_cons]
    rw [if_neg (hdis u (List.mem_cons_self _ _))]
    rw [show (us.foldl (fun a u => if u ∈ a then a else a ++ [u]) (A ++ [u])) =
      firstOccur us (A ++ [u]) from rfl]
    rw [ih (A ++ [u]) (List.nodup_cons.mp hnd).2 (by
      intro x hx
      rw [List.mem_append, List.mem_singleton]
      rintro (h | h)
      · exact hdis x (List.mem_cons_of_mem _ hx) h
      · exact (List.nodup_cons.mp hnd).1 (h ▸ hx))]
    simp

theorem firstOccur_length_le (us : List String) (A : List String) :
    (firstOccur us A).length ≤ A.length + us.length := by
  induction us generalizing A with
  | nil => simp [firstOccur]
  | cons u us ih =>
    unfold firstOccur
    simp only [List.foldl_cons]
    by_cases hu : u ∈ A
    · rw [if_pos hu]
      calc (firstOccur us A).length ≤ A.length + us.length := ih A
        _ ≤ A.length + (u :: us).length := by simp
    · rw [if_neg hu]
      calc (firstOccur us (A ++ [u])).length ≤ (A ++ [u]).length + us.length := ih _
        _ = A.length + (u :: us).length := by simp [Nat.add_comm, Nat.add_assoc,
          Nat.add_left_comm]

theorem firstOccur_length_lt (us : List String) (A : List String)
    (h : (∃ x ∈ us, x ∈ A) ∨ ¬us.Nodup) :
    (firstOccur us A).length < A.length + us.length := by
  induction us generalizing A with
  | nil =>
    rcases h with ⟨x, hx, -⟩ | h
    · simp at hx
    · exact absurd List.nodup_nil h
  | cons u us ih =>
    unfold firstOccur
    simp only [List.foldl_cons]
    by_cases hu : u ∈ A
    · rw [if_pos hu]
      calc (firstOccur us A).length ≤ A.length + us.length := firstOccur_length_le us A
        _ < A.length + (u :: us).length := by simp
    · rw [if_neg hu]
      have h' : (∃ x ∈ us, x ∈ A ++ [u]) ∨ ¬us.Nodup := by
        rcases h with ⟨x, hx, hxA⟩ | hnd
        · rcases List.mem_cons.mp hx with he | hm
          · exact absurd (he ▸ hxA) hu
          · exact Or.inl ⟨x, hm, List.mem_append_left _ hxA⟩
        · rw [List.nodup_cons] at hnd
          push_neg at hnd
          by_cases hus : u ∈ us
          · exact Or.inl ⟨u, hus, List.mem_append_right _ (List.mem_singleton.mpr rfl)⟩
          · exact Or.inr (hnd hus)
      calc (firstOccur us (A ++ [u])).length < (A ++ [u]).length + us.length := ih _ h'
        _ = A.length + (u :: us).length := by simp [Nat.add_comm, Nat.add_assoc,
          Nat.add_left_comm]

theorem chanUppers_range (panel : List String) :
    chanUppers panel (List.range panel.length) = panel.map strUpper := by
  unfold chanUppers
  apply List.ext_getElem
  · simp
  · intro i h1 h2
    simp only [List.getElem_map, List.getElem_range]
    rw [List.get?_eq_getElem?, List.getElem?_eq_getElem (by simpa using h2)]
    rfl

/-! ### Idempotence of the file write -/

theorem keysOf_map_replace {κ α : Type} [DecidableEq κ] (k : κ) (v : α)
    (d : List (κ × α)) :
    keysOf (d.map (fun p => if p.1 = k then (k, v) else p)) = keysOf d := by
  unfold keysOf
  rw [List.map_map]
  apply List.map_congr_left
  intro p _
  by_cases hp : p.1 = k
  · simp [hp]
  · simp [hp]

theorem dictInsert_idem {κ α : Type} [DecidableEq κ] (k : κ) (v : α)
    (d : List (κ × α)) :
    dictInsert k v (dictInsert k v d) = dictInsert k v d := by
  by_cases hmem : (d.any (fun p => decide (p.1 = k)) = true)
  · have h1 : dictInsert k v d = d.map (fun p => if p.1 = k then (k, v) else p) := by
      unfold dictInsert
      rw [if_pos hmem]
    have hmem2 : ((d.map (fun p => if p.1 = k then (k, v) else p)).any
        (fun p => decide (p.1 = k)) = true) := by
      rw [any_key_eq_true_iff, keysOf_map_replace]
      exact (any_key_eq_true_iff k d).mp hmem
    rw [h1]
    unfold dictInsert
    rw [if_pos hmem2, List.map_map]
    apply List.map_congr_left
    intro p _
    by_cases hp : p.1 = k
    · simp [hp]
    · simp [hp]
  · have h1 : dictInsert k v d = d ++ [(k, v)] := by
      unfold dictInsert
      rw [if_neg hmem]
    have hmem2 : ((d ++ [(k, v)]).any (fun p => decide (p.1 = k)) = true) := by
      rw [any_key_eq_true_iff, keysOf, List.map_append]
      exact List.mem_append_right _ (by simp)
    rw [h1]
    unfold dictInsert
    rw [if_pos hmem2, List.map_append]
    have hall : ∀ q ∈ d, ¬(q.1 = k) := by
      intro q hq h
      exact hmem (List.any_eq_true.mpr ⟨q, hq, by simp [h]⟩)
    congr 1
    · rw [show d = List.map id d from (List.map_id d).symm]
      rw [List.map_map]
      apply List.map_congr_left
      intro p hp
      simp [hall p hp]
    · simp

/-! ### The whole call -/

theorem quantify_expression_ok (image : List Grid) (mask : Mask)
    (panel : List String)
    (hsh : ∀ c < image.length, shapeEq mask (image.getD c []) = true)
    (hlen : image.length ≤ panel.length) :
    quantify_expression image mask panel =
      .ok ((List.range image.length).foldl (pstep mask image panel) []) := by
  unfold quantify_expression
  apply quantifyFrom_ok
  intro c hc
  rw [List.mem_range] at hc
  refine ⟨hsh c hc, ?_⟩
  rw [List.get?_eq_getElem?, List.getElem?_eq_getElem (Nat.lt_of_lt_of_le hc hlen)]
  rfl

theorem range_eq_concat (n : Nat) (h : n ≠ 0) :
    List.range n = List.range (n - 1) ++ [n - 1] := by
  cases n with
  | zero => exact absurd rfl h
  | succ m => simpa using List.range_succ m

/-! ### Claim theorems -/

/-- C9: `quantify_expression` is deterministic and idempotent.  The embedded
call is a pure function of `(image, mask, panel)`, so two runs on identical
inputs produce identical tables and identical CSV contents; running the
whole call (including the file write) twice with the same output path leaves
the file system exactly as one run does, the second run overwriting the
first's output file. -/
theorem C9_idempotent (fs : FileSystem) (image : List Grid) (mask : Mask)
    (panel : List String) (save_path : String) :
    quantify_and_save (quantify_and_save fs image mask panel save_path)
        image mask panel save_path =
      quantify_and_save fs image mask panel save_path := by
  unfold quantify_and_save
  cases hq : quantify_expression image mask panel with
  | error e => rfl
  | ok t => exact dictInsert_idem _ _ fs

/-- C5: if some channel grid's shape disagrees with the mask's shape (the other
preconditions holding: one panel name per channel), the run fails with the
shape-mismatch error (`regionprops`' `ValueError`), and no output file is
written — the file system is unchanged.  There is no retry logic. -/
theorem C5_shape_error (image : List Grid) (mask : Mask) (panel : List String)
    (fs : FileSystem) (save_path : String)
    (hlen : panel.length = image.length)
    (hbad : ∃ c, c < image.length ∧ shapeEq mask (image.getD c []) = false) :
    quantify_expression image mask panel = .error .shapeMismatch ∧
      quantify_and_save fs image mask panel save_path = fs := by
  have herr : quantify_expression image mask panel = .error .shapeMismatch := by
    unfold quantify_expression
    apply quantifyFrom_err_shape
    · intro c hc
      rw [List.mem_range] at hc
      rw [List.get?_eq_getElem?, List.getElem?_eq_getElem (hlen ▸ hc)]
      rfl
    · rcases hbad with ⟨c, hc, hb⟩
      exact ⟨c, List.mem_range.mpr hc, hb⟩
  refine ⟨herr, ?_⟩
  unfold quantify_and_save
  rw [herr]

theorem C5_shape_error_witness :
    quantify_expression [[[1, 2]]] [[0]] ["a"] = .error .shapeMismatch ∧
      quantify_and_save [] [[[1, 2]]] [[0]] ["a"] "out" = [] :=
  C5_shape_error [[[1, 2]]] [[0]] ["a"] [] "out" (by decide)
    ⟨0, by decide, by decide⟩

/-- C4 (amended): a mask with no positive labels is not an error — the run
succeeds and writes the CSV — but `cell_data` stays empty, so
`pd.DataFrame.from_dict({})` has no columns at all: the written table has
zero data rows and an *empty* header, not the full column list the claim
states. -/
theorem C4_empty_mask (image : List Grid) (mask : Mask) (panel : List String)
    (fs : FileSystem) (save_path : String)
    (hlab : maskLabels mask = [])
    (hsh : ∀ c < image.length, shapeEq mask (image.getD c []) = true) :
    quantify_expression image mask panel = .ok [] ∧
      toCsv [] = ⟨[], []⟩ ∧
      quantify_and_save fs image mask panel save_path =
        dictInsert (save_path ++ "/cell_expressions.csv") ⟨[], []⟩ fs := by
  have hrun : ∀ (cs : List Nat) (t : Table),
      (∀ c ∈ cs, shapeEq mask (image.getD c []) = true) →
      quantifyFrom mask panel image cs t = .ok t := by
    intro cs
    induction cs with
    | nil => intro t _; rfl
    | cons c cs ih =>
      intro t h
      have hstep : processChannel mask panel image c t = .ok t := by
        unfold processChannel
        rw [if_pos (h c (List.mem_cons_self _ _))]
        cases panel.get? c with
        | none => rw [if_pos hlab]
        | some nm =>
          rw [hlab]
          rfl
      simp only [quantifyFrom]
      rw [hstep]
      exact ih t (fun c' hc' => h c' (List.mem_cons_of_mem _ hc'))
  have hok : quantify_expression image mask panel = .ok [] := by
    unfold quantify_expression
    exact hrun _ [] (fun c hc => hsh c (List.mem_range.mp hc))
  refine ⟨hok, rfl, ?_⟩
  unfold quantify_and_save
  rw [hok]
  rfl

theorem C4_empty_mask_witness :
    quantify_expression [[[5]]] [[0]] ["a"] = .ok [] ∧
      toCsv [] = ⟨[], []⟩ ∧
      quantify_and_save [] [[[5]]] [[0]] ["a"] "out" =
        dictInsert ("out" ++ "/cell_expressions.csv") ⟨[], []⟩ [] :=
  C4_empty_mask [[[5]]] [[0]] ["a"] [] "out" (by decide) (by decide)

/-- C4 counterexample: with an all-zero mask (and one channel named "a"),
the run succeeds but the written table's header is empty — it is not the
claimed complete header `CELL_IDENTIFIER, ..., ORIENTATION, A`. -/
theorem C4_counterexample :
    quantify_expression [[[5]]] [[0]] ["a"] = .ok [] ∧
      (toCsv (okTable (quantify_expression [[[5]]] [[0]] ["a"]))).header = [] ∧
      ([] : List String) ≠ fixedColumns ++ ["A"] := by
  refine ⟨rfl, rfl, ?_⟩
  decide

/-- C6 (amended): when fewer channel names are supplied than channels exist
*and the mask has at least one positive label*, the run aborts with an
exception (the `IndexError` from `panel[channel_number]`, or `regionprops`'
`ValueError` if a shape mismatch strikes first) and no output CSV is
written.  With an all-zero mask the guilty subscript is never evaluated and
the CSV *is* written, which is why the label hypothesis is needed. -/
theorem C6_short_panel (image : List Grid) (mask : Mask) (panel : List String)
    (fs : FileSystem) (save_path : String)
    (hshort : panel.length < image.length)
    (hlab : maskLabels mask ≠ []) :
    (∃ e, quantify_expression image mask panel = .error e) ∧
      quantify_and_save fs image mask panel save_path = fs := by
  have herr : ∃ e, quantify_expression image mask panel = .error e := by
    unfold quantify_expression
    apply quantifyFrom_err_missing_name mask panel image _ hlab
    exact ⟨panel.length, List.mem_range.mpr hshort, List.get?_eq_none.mpr (Nat.le_refl _)⟩
  rcases herr with ⟨e, he⟩
  refine ⟨⟨e, he⟩, ?_⟩
  unfold quantify_and_save
  rw [he]

theorem C6_short_panel_witness :
    (∃ e, quantify_expression [[[5]], [[6]]] [[1]] ["a"] = .error e) ∧
      quantify_and_save [] [[[5]], [[6]]] [[1]] ["a"] "out" = [] :=
  C6_short_panel [[[5]], [[6]]] [[1]] ["a"] [] "out" (by decide) (by decide)

/-- C6 counterexample: one channel, zero channel names, but an all-zero mask:
the inner region loop never runs, `panel[0]` is never evaluated, no error is
raised, and the (empty) CSV is written — contradicting "aborts with an error
... and no output CSV is written". -/
theorem C6_counterexample :
    quantify_expression [[[5]]] [[0]] [] = .ok [] ∧
      quantify_and_save [] [[[5]]] [[0]] [] "out" =
        [("out/cell_expressions.csv", ⟨[], []⟩)] :=
  ⟨rfl, rfl⟩

/-- C1 (amended): provided at least one channel is present (and no channel
name uppercases to `CELL_IDENTIFIER`, which line 50 would otherwise
overwrite), the table has exactly one data row per positive label present in
the mask — the identifier column read off row by row is exactly the
ascending label list — regardless of how many channels (≥ 1) there are. -/
theorem C1_identifier_column (image : List Grid) (mask : Mask) (panel : List String)
    (hne : image ≠ [])
    (hlen : panel.length = image.length)
    (hsh : ∀ c < image.length, shapeEq mask (image.getD c []) = true)
    (hcid : ∀ c < image.length,
      strUpper ((panel.get? c).getD "") ≠ "CELL_IDENTIFIER") :
    ∃ t, quantify_expression image mask panel = .ok t ∧
      t.map Prod.fst = maskLabels mask ∧
      t.map (fun p => dictGet "CELL_IDENTIFIER" p.2) =
        (maskLabels mask).map (fun l => some (Value.nat l)) := by
  have hok := quantify_expression_ok image mask panel hsh (Nat.le_of_eq hlen.symm)
  set T := (List.range image.length).foldl (pstep mask image panel) [] with hT
  obtain ⟨c₀, cs', hcs⟩ : ∃ c cs', List.range image.length = c :: cs' := by
    cases hr : List.range image.length with
    | nil =>
      rw [List.range_eq_nil] at hr
      exact absurd (List.length_eq_zero.mp hr) hne
    | cons a b => exact ⟨a, b, rfl⟩
  have hkeys : T.map Prod.fst = maskLabels mask := by
    rw [hT, hcs]
    exact cfold_keys mask image panel c₀ cs'
  have hcidrow : ∀ l ∈ maskLabels mask,
      rowColGet T l "CELL_IDENTIFIER" = some (Value.nat l) := by
    intro l hl
    rw [hT, hcs]
    exact cfold_cid mask image panel l hl c₀ cs'
      (fun c' hc' => hcid c' (List.mem_range.mp (hcs ▸ hc'))) [] rfl
  refine ⟨T, hok, hkeys, ?_⟩
  have hmap : T.map (fun p => dictGet "CELL_IDENTIFIER" p.2) =
      T.map (fun p => some (Value.nat p.1)) := by
    apply List.map_congr_left
    intro p hp
    have hpl : p.1 ∈ maskLabels mask := by
      rw [← hkeys]
      exact List.mem_map.mpr ⟨p, hp, rfl⟩
    have hget : dictGet p.1 T = some p.2 :=
      dictGet_of_mem T (by
        rw [show keysOf T = T.map Prod.fst from rfl, hkeys]
        exact maskLabels_nodup mask) p hp
    have := hcidrow p.1 hpl
    unfold rowColGet at this
    rw [hget, Option.some_bind] at this
    exact this
  rw [hmap, ← hkeys, List.map_map]
  rfl

theorem C1_identifier_column_witness :
    ∃ t, quantify_expression [[[3]]] [[1]] ["a"] = .ok t ∧
      t.map Prod.fst = maskLabels [[1]] ∧
      t.map (fun p => dictGet "CELL_IDENTIFIER" p.2) =
        (maskLabels [[1]]).map (fun l => some (Value.nat l)) :=
  C1_identifier_column [[[3]]] [[1]] ["a"] (by decide) (by decide) (by decide)
    (by decide)

/-- C1 counterexample: a channel stack with zero channels satisfies the
stated preconditions (panel length equals channel count, shapes vacuously
agree), yet the output table is empty although the mask's label set is {1}:
there is no row per label, so the property does not hold "regardless of the
number of channels". -/
theorem C1_counterexample :
    quantify_expression [] [[1]] [] = .ok [] ∧
      maskLabels [[1]] = [1] ∧
      (([] : Table).map (fun p => dictGet "CELL_IDENTIFIER" p.2)) ≠
        (maskLabels [[1]]).map (fun l => some (Value.nat l)) := by
  refine ⟨rfl, by decide, ?_⟩
  decide

/-- C3 (amended): provided at least one channel exists and the *last*
channel's uppercased name is not `SIZE` (line 50 of the source would
otherwise overwrite the `SIZE` cell after the final geometry write), the
`SIZE` value of every present label's row equals the exact pixel count of
that label in the mask (`round` of an integer is that integer). -/
theorem C3_size_column (image : List Grid) (mask : Mask) (panel : List String)
    (l : Nat)
    (hne : image ≠ [])
    (hlen : panel.length = image.length)
    (hsh : ∀ c < image.length, shapeEq mask (image.getD c []) = true)
    (hlast : strUpper ((panel.get? (image.length - 1)).getD "") ≠ "SIZE")
    (hl : l ∈ maskLabels mask) :
    ∃ t, quantify_expression image mask panel = .ok t ∧
      rowColGet t l "SIZE" = some (Value.int ((maskCount mask l : Int))) := by
  have hok := quantify_expression_ok image mask panel hsh (Nat.le_of_eq hlen.symm)
  refine ⟨_, hok, ?_⟩
  have hC : image.length ≠ 0 := fun h => hne (List.length_eq_zero.mp h)
  rw [range_eq_concat image.length hC,
    cfold_col_geometry_concat mask image panel l "SIZE" (by decide) hl _ _ _,
    if_neg (fun h => hlast h.symm)]
  unfold geomVal
  rw [if_neg (by decide), if_neg (by decide), if_pos rfl, regionPixels_length,
    pyRound_natCast]

theorem C3_size_column_witness :
    ∃ t, quantify_expression [[[3]]] [[1]] ["a"] = .ok t ∧
      rowColGet t 1 "SIZE" = some (Value.int ((maskCount [[1]] 1 : Int))) :=
  C3_size_column [[[3]]] [[1]] ["a"] 1 (by decide) (by decide) (by decide)
    (by decide) (by decide)

/-- C3 counterexample: a single channel literally named "size": line 50
overwrites the `SIZE` cell with that channel's mean intensity (7), so the
`SIZE` value is not the pixel count (1). -/
theorem C3_counterexample :
    rowColGet (okTable (quantify_expression [[[7]]] [[1]] ["size"])) 1 "SIZE" =
        some (Value.rat 7) ∧
      maskCount [[1]] 1 = 1 ∧
      some (Value.rat 7) ≠ some (Value.int ((1 : Nat) : Int)) := by
  have hok := quantify_expression_ok [[[7]]] [[1]] ["size"] (by decide) (by decide)
  have hT : okTable (quantify_expression [[[7]]] [[1]] ["size"]) =
      (List.range 1).foldl (pstep [[1]] [[[7]]] ["size"]) [] := by
    rw [hok]
    rfl
  rw [hT, show List.range 1 = [] ++ [0] from rfl,
    cfold_col_geometry_concat [[1]] [[[7]]] ["size"] 1 "SIZE" (by decide)
      (by decide) [] 0 [], if_pos (by decide)]
  refine ⟨?_, by decide, by decide⟩
  rw [show regionPixels [[1]] 1 = [(0, 0)] from by decide]
  norm_num [intensityMean, pixelVal]

/-- C7 (amended): provided the last channel's uppercased name is none of the
seven geometry columns, each geometry column of every present label's row
equals `geomVal mask l col` — a function of the mask and label alone — so
the final geometry values do not depend on the channel data, their number,
or their order. -/
theorem C7_geometry_mask_only (image : List Grid) (mask : Mask)
    (panel : List String) (l : Nat) (col : String)
    (hne : image ≠ [])
    (hlen : panel.length = image.length)
    (hsh : ∀ c < image.length, shapeEq mask (image.getD c []) = true)
    (hlast : strUpper ((panel.get? (image.length - 1)).getD "") ∉ geometryColumns)
    (hl : l ∈ maskLabels mask) (hcol : col ∈ geometryColumns) :
    ∃ t, quantify_expression image mask panel = .ok t ∧
      rowColGet t l col = some (geomVal mask l col) := by
  have hok := quantify_expression_ok image mask panel hsh (Nat.le_of_eq hlen.symm)
  refine ⟨_, hok, ?_⟩
  have hC : image.length ≠ 0 := fun h => hne (List.length_eq_zero.mp h)
  rw [range_eq_concat image.length hC,
    cfold_col_geometry_concat mask image panel l col hcol hl _ _ _,
    if_neg (fun h : col = _ => hlast (by rw [← h]; exact hcol))]

theorem C7_geometry_mask_only_witness :
    ∃ t, quantify_expression [[[3]]] [[1]] ["a"] = .ok t ∧
      rowColGet t 1 "X" = some (geomVal [[1]] 1 "X") :=
  C7_geometry_mask_only [[[3]]] [[1]] ["a"] 1 "X" (by decide) (by decide)
    (by decide) (by decide) (by decide) (by decide)

/-- C7 counterexample: a channel named "x".  Two runs with the *same mask*
but different intensities leave different values in the geometry column `X`
(the channel write of line 50 lands on it after the geometry writes), so the
final geometry columns do not depend only on the mask. -/
theorem C7_counterexample :
    rowColGet (okTable (quantify_expression [[[0]]] [[1]] ["x"])) 1 "X" =
        some (Value.rat 0) ∧
      rowColGet (okTable (quantify_expression [[[4]]] [[1]] ["x"])) 1 "X" =
        some (Value.rat 4) ∧
      (some (Value.rat 0) : Option Value) ≠ some (Value.rat 4) := by
  have hok0 := quantify_expression_ok [[[0]]] [[1]] ["x"] (by decide) (by decide)
  have hok4 := quantify_expression_ok [[[4]]] [[1]] ["x"] (by decide) (by decide)
  refine ⟨?_, ?_, by decide⟩
  · have hT : okTable (quantify_expression [[[0]]] [[1]] ["x"]) =
        (List.range 1).foldl (pstep [[1]] [[[0]]] ["x"]) [] := by
      rw [hok0]
      rfl
    rw [hT, show List.range 1 = [] ++ [0] from rfl,
      cfold_col_geometry_concat [[1]] [[[0]]] ["x"] 1 "X" (by decide)
        (by decide) [] 0 [], if_pos (by decide)]
    rw [show regionPixels [[1]] 1 = [(0, 0)] from by decide]
    norm_num [intensityMean, pixelVal]
  · have hT : okTable (quantify_expression [[[4]]] [[1]] ["x"]) =
        (List.range 1).foldl (pstep [[1]] [[[4]]] ["x"]) [] := by
      rw [hok4]
      rfl
    rw [hT, show List.range 1 = [] ++ [0] from rfl,
      cfold_col_geometry_concat [[1]] [[[4]]] ["x"] 1 "X" (by decide)
        (by decide) [] 0 [], if_pos (by decide)]
    rw [show regionPixels [[1]] 1 = [(0, 0)] from by decide]
    norm_num [intensityMean, pixelVal]

/-- In the fold over all channels, a non-fixed column named by channel `c`'s
uppercased name ends up holding channel `c`'s mean when no later channel
shares that uppercased name. -/
theorem cfold_last_name_value (image : List Grid) (mask : Mask)
    (panel : List String) (c l : Nat)
    (hc : c < image.length)
    (hfixn : strUpper ((panel.get? c).getD "") ∉ fixedColumns)
    (hlater : ∀ j < image.length, c < j →
      strUpper ((panel.get? j).getD "") ≠ strUpper ((panel.get? c).getD ""))
    (hl : l ∈ maskLabels mask) :
    rowColGet ((List.range image.length).foldl (pstep mask image panel) []) l
        (strUpper ((panel.get? c).getD "")) =
      some (Value.rat (intensityMean (image.getD c []) (regionPixels mask l))) := by
  rw [cfold_col_notfixed mask image panel l _ hfixn hl (List.range image.length) []]
  have hsplit : List.range image.length =
      List.range (c + 1) ++
        (List.range (image.length - (c + 1))).map (fun x => (c + 1) + x) := by
    rw [← List.range_add]
    congr 1
    omega
  rw [hsplit, colTrace_append, colTrace_of_no_match _ _ _ _ _ _ _ (by
    intro j hj
    rcases List.mem_map.mp hj with ⟨x, hx, rfl⟩
    rw [List.mem_range] at hx
    exact fun he => hlater (c + 1 + x) (by omega) (by omega) he.symm)]
  rw [List.range_succ, colTrace_append]
  unfold colTrace
  simp only [List.foldl_cons, List.foldl_nil]
  rw [if_pos trivial]

/-- C2 (amended): for every channel `c` whose uppercased name is not one of
the eight fixed column names and is not shared with any later channel, and
for every positive label present in the mask, the column named by that
uppercased name holds the arithmetic mean of channel `c`'s intensities over
exactly the pixels of that label.  (A later channel with the same uppercased
name would overwrite the cell — see C10 — and a name equal to a fixed column
collides with the geometry writes.) -/
theorem C2_mean_column (image : List Grid) (mask : Mask) (panel : List String)
    (c l : Nat)
    (hlen : panel.length = image.length)
    (hsh : ∀ i < image.length, shapeEq mask (image.getD i []) = true)
    (hc : c < image.length)
    (hfix : strUpper ((panel.get? c).getD "") ∉ fixedColumns)
    (hlater : ∀ j < image.length, c < j →
      strUpper ((panel.get? j).getD "") ≠ strUpper ((panel.get? c).getD ""))
    (hl : l ∈ maskLabels mask) :
    ∃ t, quantify_expression image mask panel = .ok t ∧
      rowColGet t l (strUpper ((panel.get? c).getD "")) =
        some (Value.rat (intensityMean (image.getD c []) (regionPixels mask l))) := by
  exact ⟨_, quantify_expression_ok image mask panel hsh (Nat.le_of_eq hlen.symm),
    cfold_last_name_value image mask panel c l hc hfix hlater hl⟩

theorem C2_mean_column_witness :
    ∃ t, quantify_expression [[[3]]] [[1]] ["a"] = .ok t ∧
      rowColGet t 1 (strUpper (((["a"] : List String).get? 0).getD "")) =
        some (Value.rat (intensityMean (([[[3]]] : List Grid).getD 0 [])
          (regionPixels [[1]] 1))) :=
  C2_mean_column [[[3]]] [[1]] ["a"] 0 1 (by decide) (by decide) (by decide)
    (by decide) (by decide) (by decide)

/-- C2 counterexample: two channels named "a" and "A" share the uppercased
name "A".  The column "A" of label 1 holds the second channel's mean (4),
not the first channel's mean (2), so the claim fails for channel 0. -/
theorem C2_counterexample :
    rowColGet (okTable (quantify_expression [[[2]], [[4]]] [[1]] ["a", "A"])) 1
        (strUpper "a") = some (Value.rat 4) ∧
      intensityMean [[2]] (regionPixels [[1]] 1) = 2 ∧
      (some (Value.rat 4) : Option Value) ≠ some (Value.rat 2) := by
  have hok := quantify_expression_ok [[[2]], [[4]]] [[1]] ["a", "A"] (by decide)
    (by decide)
  have hT : okTable (quantify_expression [[[2]], [[4]]] [[1]] ["a", "A"]) =
      (List.range 2).foldl (pstep [[1]] [[[2]], [[4]]] ["a", "A"]) [] := by
    rw [hok]
    rfl
  refine ⟨?_, ?_, by decide⟩
  · rw [hT, cfold_col_notfixed [[1]] [[[2]], [[4]]] ["a", "A"] 1 (strUpper "a")
      (by decide) (by decide) (List.range 2) []]
    unfold colTrace
    rw [show List.range 2 = [0, 1] from rfl]
    simp only [List.foldl_cons, List.foldl_nil]
    rw [if_pos (by decide)]
    rw [show regionPixels [[1]] 1 = [(0, 0)] from by decide]
    norm_num [intensityMean, pixelVal]
  · rw [show regionPixels [[1]] 1 = [(0, 0)] from by decide]
    norm_num [intensityMean, pixelVal]

/-- C8 (amended): provided the mask has at least one positive label, at least
one channel exists, and the uppercased channel names are pairwise distinct
and distinct from the eight fixed column names, the CSV columns are exactly
`CELL_IDENTIFIER, MAJOR_AXIS_LENGTH, MINOR_AXIS_LENGTH, X, Y, SIZE,
ECCENTRICITY, ORIENTATION` followed by the uppercased channel names in
channel order, and the data rows are in strictly ascending label order. -/
theorem C8_layout (image : List Grid) (mask : Mask) (panel : List String)
    (hne : image ≠ [])
    (hlen : panel.length = image.length)
    (hsh : ∀ c < image.length, shapeEq mask (image.getD c []) = true)
    (hlab : maskLabels mask ≠ [])
    (hnd : (panel.map strUpper).Nodup)
    (hfix : ∀ nm ∈ panel, strUpper nm ∉ fixedColumns) :
    ∃ t, quantify_expression image mask panel = .ok t ∧
      (toCsv t).header = fixedColumns ++ panel.map strUpper ∧
      t.map Prod.fst = maskLabels mask ∧
      List.Pairwise (· < ·) (t.map Prod.fst) := by
  have hok := quantify_expression_ok image mask panel hsh (Nat.le_of_eq hlen.symm)
  set T := (List.range image.length).foldl (pstep mask image panel) [] with hT
  obtain ⟨c₀, cs', hcs⟩ : ∃ c cs', List.range image.length = c :: cs' := by
    cases hr : List.range image.length with
    | nil =>
      rw [List.range_eq_nil] at hr
      exact absurd (List.length_eq_zero.mp hr) hne
    | cons a b => exact ⟨a, b, rfl⟩
  have hall : ∀ c ∈ List.range image.length,
      strUpper ((panel.get? c).getD "") ∉ fixedColumns := by
    intro c hc
    rw [List.mem_range] at hc
    have hc' : c < panel.length := hlen ▸ hc
    rw [List.get?_eq_getElem?, List.getElem?_eq_getElem hc']
    exact hfix _ (List.getElem_mem hc')
  have hkeys : T.map Prod.fst = maskLabels mask := by
    rw [hT, hcs]
    exact cfold_keys mask image panel c₀ cs'
  have hchu : chanUppers panel (List.range image.length) = panel.map strUpper := by
    rw [← hlen]
    exact chanUppers_range panel
  have hfo : firstOccur (chanUppers panel (List.range image.length)) [] =
      panel.map strUpper := by
    rw [hchu, firstOccur_eq_append _ _ hnd (by intro u _; simp)]
    simp
  have hrows : ∀ p ∈ T, keysOf p.2 = fixedColumns ++ panel.map strUpper := by
    intro p hp
    have hpl : p.1 ∈ maskLabels mask := by
      rw [← hkeys]
      exact List.mem_map.mpr ⟨p, hp, rfl⟩
    have hget : dictGet p.1 T = some p.2 :=
      dictGet_of_mem T (by
        rw [show keysOf T = T.map Prod.fst from rfl, hkeys]
        exact maskLabels_nodup mask) p hp
    have hrk := cfold_rowkeys_from_empty mask image panel p.1 hpl c₀ cs'
      (fun c' hc' => hall c' (hcs ▸ hc'))
    rw [← hcs, ← hT, hget, Option.map_some'] at hrk
    have h2 := Option.some.inj hrk
    rw [hfo] at h2
    exact h2
  have hTne : T ≠ [] := by
    intro h0
    rw [h0] at hkeys
    exact hlab hkeys.symm
  have hcols : tableColumns T = fixedColumns ++ panel.map strUpper :=
    tableColumns_const T _ hTne hrows
  refine ⟨T, hok, hcols, hkeys, ?_⟩
  rw [hkeys]
  exact maskLabels_sorted mask

theorem C8_layout_witness :
    ∃ t, quantify_expression [[[2]], [[4]]] [[1]] ["a", "b"] = .ok t ∧
      (toCsv t).header = fixedColumns ++ (["a", "b"] : List String).map strUpper ∧
      t.map Prod.fst = maskLabels [[1]] ∧
      List.Pairwise (· < ·) (t.map Prod.fst) :=
  C8_layout [[[2]], [[4]]] [[1]] ["a", "b"] (by decide) (by decide) (by decide)
    (by decide) (by decide) (by decide)

/-- C8 counterexample: channels "a" and "A" collapse to one column after
uppercasing, so the header is the eight fixed columns followed by a single
"A" — not one column per channel name. -/
theorem C8_counterexample :
    (toCsv (okTable (quantify_expression [[[2]], [[4]]] [[1]] ["a", "A"]))).header =
        fixedColumns ++ ["A"] ∧
      fixedColumns ++ ["A"] ≠
        fixedColumns ++ (["a", "A"] : List String).map strUpper := by
  exact ⟨rfl, by decide⟩

/-- C10 (amended): when two distinct channels `i < j` share an uppercased
name (with `j` the last channel bearing it, the shared name not colliding
with the eight fixed columns, and all channel names avoiding the fixed
columns), the output has a *single* column of that name, holding channel
`j`'s mean intensities in every present label's row; the earlier channel's
means are lost and the header has fewer columns than the eight fixed ones
plus one per channel. -/
theorem C10_duplicate_names (image : List Grid) (mask : Mask)
    (panel : List String) (i j : Nat)
    (hlen : panel.length = image.length)
    (hsh : ∀ c < image.length, shapeEq mask (image.getD c []) = true)
    (hlab : maskLabels mask ≠ [])
    (hij : i < j) (hj : j < image.length)
    (hdup : strUpper ((panel.get? i).getD "") = strUpper ((panel.get? j).getD ""))
    (hfix : ∀ nm ∈ panel, strUpper nm ∉ fixedColumns)
    (hlast : ∀ k < image.length, j < k →
      strUpper ((panel.get? k).getD "") ≠ strUpper ((panel.get? j).getD "")) :
    ∃ t, quantify_expression image mask panel = .ok t ∧
      (toCsv t).header.count (strUpper ((panel.get? j).getD "")) = 1 ∧
      (∀ l ∈ maskLabels mask,
        rowColGet t l (strUpper ((panel.get? j).getD "")) =
          some (Value.rat (intensityMean (image.getD j []) (regionPixels mask l)))) ∧
      (toCsv t).header.length < fixedColumns.length + image.length := by
  have hne : image ≠ [] := by
    intro h0
    rw [h0] at hj
    simp at hj
  have hok := quantify_expression_ok image mask panel hsh (Nat.le_of_eq hlen.symm)
  set T := (List.range image.length).foldl (pstep mask image panel) [] with hT
  set us := chanUppers panel (List.range image.length) with hus
  obtain ⟨c₀, cs', hcs⟩ : ∃ c cs', List.range image.length = c :: cs' := by
    cases hr : List.range image.length with
    | nil =>
      rw [List.range_eq_nil] at hr
      exact absurd (List.length_eq_zero.mp hr) hne
    | cons a b => exact ⟨a, b, rfl⟩
  have hall : ∀ c ∈ List.range image.length,
      strUpper ((panel.get? c).getD "") ∉ fixedColumns := by
    intro c hc
    rw [List.mem_range] at hc
    have hc' : c < panel.length := hlen ▸ hc
    rw [List.get?_eq_getElem?, List.getElem?_eq_getElem hc']
    exact hfix _ (List.getElem_mem hc')
  have hkeys : T.map Prod.fst = maskLabels mask := by
    rw [hT, hcs]
    exact cfold_keys mask image panel c₀ cs'
  have hrows : ∀ p ∈ T, keysOf p.2 = fixedColumns ++ firstOccur us [] := by
    intro p hp
    have hpl : p.1 ∈ maskLabels mask := by
      rw [← hkeys]
      exact List.mem_map.mpr ⟨p, hp, rfl⟩
    have hget : dictGet p.1 T = some p.2 :=
      dictGet_of_mem T (by
        rw [show keysOf T = T.map Prod.fst from rfl, hkeys]
        exact maskLabels_nodup mask) p hp
    have hrk := cfold_rowkeys_from_empty mask image panel p.1 hpl c₀ cs'
      (fun c' hc' => hall c' (hcs ▸ hc'))
    rw [← hcs, ← hT, hget, Option.map_some'] at hrk
    exact Option.some.inj hrk
  have hTne : T ≠ [] := by
    intro h0
    rw [h0] at hkeys
    exact hlab hkeys.symm
  have hcols : tableColumns T = fixedColumns ++ firstOccur us [] :=
    tableColumns_const T _ hTne hrows
  have husget : ∀ k (hk : k < image.length),
      strUpper ((panel.get? k).getD "") ∈ us := by
    intro k hk
    rw [hus]
    unfold chanUppers
    exact List.mem_map.mpr ⟨k, List.mem_range.mpr hk, rfl⟩
  have huslen : us.length = image.length := by
    rw [hus]
    unfold chanUppers
    simp
  have husnd : ¬us.Nodup := by
    intro hnd
    rw [hus] at hnd
    unfold chanUppers at hnd
    have hp : List.Pairwise (fun a b =>
        strUpper ((panel.get? a).getD "") ≠ strUpper ((panel.get? b).getD ""))
        (List.range image.length) := List.pairwise_map.mp hnd
    have hsymm : Symmetric (fun a b : Nat =>
        strUpper ((panel.get? a).getD "") ≠ strUpper ((panel.get? b).getD "")) :=
      fun x y hxy he => hxy he.symm
    exact (hp.forall hsymm) (List.mem_range.mpr (Nat.lt_trans hij hj))
      (List.mem_range.mpr hj) (Nat.ne_of_lt hij) hdup
  have hnotfix : strUpper ((panel.get? j).getD "") ∉ fixedColumns :=
    hall j (List.mem_range.mpr hj)
  refine ⟨T, hok, ?_, ?_, ?_⟩
  · rw [show (toCsv T).header = tableColumns T from rfl, hcols, List.count_append,
      List.count_eq_zero_of_not_mem hnotfix, Nat.zero_add]
    exact List.count_eq_one_of_mem (firstOccur_nodup us [] List.nodup_nil)
      ((mem_firstOccur us [] _).mpr (Or.inr (husget j hj)))
  · intro l hl
    rw [hT]
    exact cfold_last_name_value image mask panel j l hj hnotfix hlast hl
  · rw [show (toCsv T).header = tableColumns T from rfl, hcols, List.length_append]
    have := firstOccur_length_lt us [] (Or.inr husnd)
    simp only [List.length_nil, Nat.zero_add] at this
    omega

theorem C10_duplicate_names_witness :
    ∃ t, quantify_expression [[[2]], [[4]], [[6]]] [[1]] ["a", "a", "b"] = .ok t ∧
      (toCsv t).header.count
        (strUpper (((["a", "a", "b"] : List String).get? 1).getD "")) = 1 ∧
      (∀ l ∈ maskLabels [[1]],
        rowColGet t l (strUpper (((["a", "a", "b"] : List String).get? 1).getD "")) =
          some (Value.rat (intensityMean (([[[2]], [[4]], [[6]]] : List Grid).getD 1 [])
            (regionPixels [[1]] l)))) ∧
      (toCsv t).header.length < fixedColumns.length + ([[[2]], [[4]], [[6]]] : List Grid).length :=
  C10_duplicate_names [[[2]], [[4]], [[6]]] [[1]] ["a", "a", "b"] 0 1 (by decide)
    (by decide) (by decide) (by decide) (by decide) (by decide) (by decide)
    (by decide)

set_option maxHeartbeats 1000000 in
/-- C10 counterexample: channels `["size", "size", "b"]` share the uppercased
name "SIZE", whose last bearer is channel 1 (mean 4).  But because "SIZE" is
also a geometry column, channel 2's geometry pass rewrites it to the pixel
count 1 — the single column does *not* hold the last such channel's means,
refuting the claim as stated for names colliding with fixed columns. -/
theorem C10_counterexample :
    rowColGet (okTable (quantify_expression [[[2]], [[4]], [[6]]] [[1]]
        ["size", "size", "b"])) 1 "SIZE" = some (Value.int 1) ∧
      intensityMean [[4]] (regionPixels [[1]] 1) = 4 ∧
      (some (Value.int 1) : Option Value) ≠ some (Value.rat 4) := by
  have hok := quantify_expression_ok [[[2]], [[4]], [[6]]] [[1]]
    ["size", "size", "b"] (by decide) (by decide)
  have hT : okTable (quantify_expression [[[2]], [[4]], [[6]]] [[1]]
      ["size", "size", "b"]) =
      (List.range ([[[2]], [[4]], [[6]]] : List Grid).length).foldl
        (pstep [[1]] [[[2]], [[4]], [[6]]] ["size", "size", "b"]) [] := by
    rw [hok]
    rfl
  refine ⟨?_, ?_, by decide⟩
  · rw [hT, show List.range ([[[2]], [[4]], [[6]]] : List Grid).length =
        [0, 1] ++ [2] from by decide,
      cfold_col_geometry_concat [[1]] [[[2]], [[4]], [[6]]] ["size", "size", "b"]
        1 "SIZE" (by decide) (by decide) [0, 1] 2 [],
      if_neg (by decide)]
    unfold geomVal
    rw [if_neg (by decide), if_neg (by decide), if_pos rfl, regionPixels_length,
      pyRound_natCast, show maskCount [[1]] 1 = 1 from by decide]
    norm_num
  · rw [show regionPixels [[1]] 1 = [(0, 0)] from by decide]
    norm_num [intensityMean, pixelVal]
